import Mathlib

/-!
Shallow embedding of `src/video_transcriber.py` (repository cwjcw/videototext).

The program orchestrates three external capabilities (video decoding, silence
splitting, speech recognition).  Those externals are modelled by oracles: a
record of booleans / partial functions saying, for each external call the
Python code makes, whether that call raises an exception and (for
transcription calls) what text it returns.  Everything the Python code itself
does — control flow, exception handling, filename construction, filesystem
bookkeeping — is embedded faithfully.

Filesystem: an association list from paths (lists of characters) to file
contents.  Paths are `List Char` so that string manipulation
(`os.path.basename`, `os.path.splitext`) can be reasoned about structurally.

A Python function that can return `None` is embedded with result
`Option (List Char)`; a function whose body can let an exception escape is
embedded with result `Except Unit _`, where `.error ()` is a propagated
exception.
-/

set_option linter.unusedVariables false
set_option linter.unnecessarySimpa false

deriving instance DecidableEq for Except

namespace VideoToText

abbrev Path := List Char

/-- `os.path.basename`: the part of the path after the last `'/'`
(the whole path when there is no `'/'`). -/
def basename (p : Path) : Path :=
  p.foldl (fun acc c => if c = '/' then [] else acc ++ [c]) []

/-- Root part of Python `os.path.splitext` applied to a basename (a string
with no `'/'`): cut at the last dot, unless every character before that dot
is itself a dot (so `".bashrc"` keeps its dot).  In
`get_filename_without_extension` the argument is always a basename. -/
def splitextRoot (b : Path) : Path :=
  match b.reverse.dropWhile (fun c => c ≠ '.') with
  | [] => b
  | _ :: rest => if rest.any (fun c => c ≠ '.') then rest.reverse else b

/-- `get_filename_without_extension` (lines 79-85):
`os.path.splitext(os.path.basename(file_path))[0]`. -/
def get_filename_without_extension (p : Path) : Path :=
  splitextRoot (basename p)

/-- `audio_file = f"{video_name}_temp_audio.mp3"` (line 103). -/
def audioFileOf (videoName : Path) : Path :=
  videoName ++ "_temp_audio.mp3".toList

/-- `text_output_file = f"{video_name}.txt"` (line 104). -/
def textFileOf (videoName : Path) : Path :=
  videoName ++ ".txt".toList

/-- `output_dir=f"{video_name}_audio_chunks"` (line 121). -/
def chunksDirOf (videoName : Path) : Path :=
  videoName ++ "_audio_chunks".toList

/-- `chunk_filename = os.path.join(output_dir, f"chunk_{i}.wav")` (line 57). -/
def chunkFileName (dir : Path) (i : Nat) : Path :=
  dir ++ '/' :: ("chunk_".toList ++ (Nat.repr i).toList ++ ".wav".toList)

/-- Python `" ".join(full_text)` (line 74). -/
def joinSpace : List (List Char) → List Char
  | [] => []
  | [t] => t
  | t :: ts => t ++ ' ' :: joinSpace ts

/-- Default `min_silence_len` in the signature of
`split_and_transcribe_audio` (line 36). -/
def default_min_silence_len : Int := 500

/-- Default `silence_thresh` in the signature of
`split_and_transcribe_audio` (line 36). -/
def default_silence_thresh : Int := -40

/-- `min_silence_len=700` passed by `process_video_to_text` (line 122). -/
def orch_min_silence_len : Int := 700

/-- `silence_thresh=-35` passed by `process_video_to_text` (line 123). -/
def orch_silence_thresh : Int := -35

/-- Oracle for the external calls made by `transcribe_audio_with_whisper`:
whether `whisper.load_model` succeeds, and the outcome of
`model.transcribe` (`none` = the call raises). -/
structure DirectOracle where
  loadModelOk : Bool
  transcribeResult : Option (List Char)

/-- `transcribe_audio_with_whisper` (lines 20-34): the whole body is inside
one `try`; any exception from model loading or inference is caught and the
function returns `None`. -/
def transcribe_audio_with_whisper (o : DirectOracle) : Option (List Char) :=
  if o.loadModelOk then o.transcribeResult else none

/-- Oracle for the external calls made by `split_and_transcribe_audio`:
`os.makedirs`, `AudioSegment.from_file`, `split_on_silence` (yielding
`numChunks` chunks), `whisper.load_model`, and per chunk index the outcomes
of `chunk.export`, `model.transcribe` (`none` = raises) and `os.remove`. -/
structure SegOracle where
  mkdirFails : Bool
  loadAudioOk : Bool
  splitOk : Bool
  numChunks : Nat
  loadModelOk : Bool
  exportOk : Nat → Bool
  chunkText : Nat → Option (List Char)
  removeOk : Nat → Bool

/-- The `for i, chunk in enumerate(chunks)` loop (lines 56-72), run from
chunk index `i` with `fuel` chunks remaining.  State: `disk` = chunk indices
whose files currently exist, `snaps` = snapshot of `disk` recorded just
after each `chunk.export`, `texts` = `full_text`.  Returns
`(none = an exception escaped the loop, snapshots, chunk files left on disk)`.
A failed `chunk.export` or `model.transcribe` raises (caught by the outer
`try`); a failed `os.remove` is caught by the inner `try` (lines 68-72) and
the loop continues. -/
def segLoop (o : SegOracle) :
    Nat → Nat → List Nat → List (List Nat) → List (List Char) →
    Option (List (List Char)) × List (List Nat) × List Nat
  | _, 0, disk, snaps, texts => (some texts, snaps, disk)
  | i, fuel + 1, disk, snaps, texts =>
    if o.exportOk i then
      match o.chunkText i with
      | none => (none, snaps ++ [disk ++ [i]], disk ++ [i])
      | some t =>
        segLoop o (i + 1) fuel
          (if o.removeOk i then (disk ++ [i]).filter (fun j => j != i)
           else disk ++ [i])
          (snaps ++ [disk ++ [i]]) (texts ++ [t])
    else (none, snaps, disk)

/-- Outcome of one run of `split_and_transcribe_audio`: the Python result
(`.error ()` = an exception propagated to the caller, `.ok none` =
returned `None`, `.ok (some t)` = returned transcript `t`), the recorded
disk snapshots, and the chunk files still on disk at return. -/
structure SegRun where
  result : Except Unit (Option (List Char))
  snapshots : List (List Nat)
  diskAfter : List Nat

/-- `split_and_transcribe_audio` (lines 36-77).  `dirExists` is
`os.path.exists(output_dir)`.  The `os.makedirs` call (lines 41-42) sits
BEFORE the `try` block (line 44), so its failure propagates as an
exception; every later failure is caught and turned into `None`.
`min_silence_len` and `silence_thresh` are forwarded to `split_on_silence`
(an external call, part of the oracle) and have no further effect here. -/
def split_and_transcribe_audio (dirExists : Bool)
    (min_silence_len silence_thresh : Int) (o : SegOracle) : SegRun :=
  if !dirExists && o.mkdirFails then ⟨.error (), [], []⟩
  else if !o.loadAudioOk then ⟨.ok none, [], []⟩
  else if !o.splitOk then ⟨.ok none, [], []⟩
  else if !o.loadModelOk then ⟨.ok none, [], []⟩
  else
    match segLoop o 0 o.numChunks [] [] [] with
    | (none, snaps, disk) => ⟨.ok none, snaps, disk⟩
    | (some texts, snaps, disk) => ⟨.ok (some (joinSpace texts)), snaps, disk⟩

/-- The filesystem: an association list from path to file content.  A
directory is an entry with empty content whose path is the directory name. -/
abbrev FS := List (Path × List Char)

/-- `os.path.exists`. -/
def fsExists (fs : FS) (p : Path) : Bool :=
  fs.any (fun e => e.1 == p)

/-- Content of the file at `p`, when it exists. -/
def fsGet (fs : FS) (p : Path) : Option (List Char) :=
  match fs.find? (fun e => e.1 == p) with
  | some e => some e.2
  | none => none

/-- Creating / overwriting a file (Python `open(p, "w")` + write): the old
entry at `p`, if any, is replaced. -/
def fsWrite (fs : FS) (p : Path) (c : List Char) : FS :=
  (p, c) :: fs.filter (fun e => e.1 != p)

/-- `os.remove`. -/
def fsRemove (fs : FS) (p : Path) : FS :=
  fs.filter (fun e => e.1 != p)

/-- `shutil.rmtree dir`: removes the directory entry and every entry whose
path lies under `dir ++ "/"`. -/
def fsRmtree (fs : FS) (dir : Path) : FS :=
  fs.filter (fun e => !(e.1 == dir || e.1.take (dir.length + 1) == dir ++ ['/']))

/-- Python truthiness of `transcribed_text` at line 131: `None` and the
empty string are falsy. -/
def pyTruthy : Option (List Char) → Bool
  | none => false
  | some t => !t.isEmpty

/-- Oracle for the external calls made by `process_video_to_text`:
audio extraction, the transcriber oracles, whether the output-file write
succeeds, and whether the cleanup calls `os.remove(audio_file)` and
`shutil.rmtree(chunks_dir)` succeed. -/
structure OrchOracle where
  extractOk : Bool
  direct : DirectOracle
  seg : SegOracle
  writeOk : Bool
  removeAudioOk : Bool
  rmtreeOk : Bool

/-- Second half of the cleanup `try` block (lines 153-159): remove the
chunk directory when segmentation was used.  A failing `rmtree` raises
(caught at line 160); its partial effects are not modelled. -/
def cleanupDir (fs : FS) (chunksDir : Path) (useSeg : Bool) (o : OrchOracle) : FS :=
  if useSeg then
    if fsExists fs chunksDir then
      if o.rmtreeOk then fsRmtree fs chunksDir else fs
    else fs
  else fs

/-- The cleanup `try` block (lines 147-161): remove the temporary audio
file if it exists, then (still inside the same `try`) the chunk directory.
If `os.remove(audio_file)` raises, the exception jumps to the `except`
(line 160) and the `rmtree` part is never reached. -/
def cleanup (fs : FS) (audioFile chunksDir : Path) (useSeg : Bool) (o : OrchOracle) : FS :=
  if fsExists fs audioFile then
    if o.removeAudioOk then cleanupDir (fsRemove fs audioFile) chunksDir useSeg o
    else fs
  else cleanupDir fs chunksDir useSeg o

/-- Step 2 of `process_video_to_text` (lines 114-128): run the chosen
transcriber and mirror its filesystem effects.  In segmented mode the chunk
directory is created when absent (unless `makedirs` raised) and any chunk
files the segmenting transcriber left behind appear on disk. -/
def orchTranscribe (useSeg : Bool) (videoName : Path) (fs : FS) (o : OrchOracle) :
    Except Unit (Option (List Char)) × FS :=
  if useSeg then
    ((split_and_transcribe_audio (fsExists fs (chunksDirOf videoName))
        orch_min_silence_len orch_silence_thresh o.seg).result,
     (split_and_transcribe_audio (fsExists fs (chunksDirOf videoName))
        orch_min_silence_len orch_silence_thresh o.seg).diskAfter.foldl
       (fun a i => fsWrite a (chunkFileName (chunksDirOf videoName) i) [])
       (if fsExists fs (chunksDirOf videoName) then fs
        else if o.seg.mkdirFails then fs
        else fsWrite fs (chunksDirOf videoName) []))
  else (.ok (transcribe_audio_with_whisper o.direct), fs)

/-- `process_video_to_text` (lines 87-163).  Result `.error ()` means an
exception escaped the function (possible only via
`split_and_transcribe_audio`, whose `makedirs` is unguarded); `.ok b` is
the Python return value.  The second component is the final filesystem.
A failing audio extraction or output write may leave a partial file; those
partial effects are not modelled (the filesystem is left unchanged). -/
def process_video_to_text (videoPath : Path) (use_segmentation : Bool)
    (fs : FS) (o : OrchOracle) : Except Unit Bool × FS :=
  if !fsExists fs videoPath then (.ok false, fs)
  else if !o.extractOk then (.ok false, fs)
  else
    match orchTranscribe use_segmentation (get_filename_without_extension videoPath)
        (fsWrite fs (audioFileOf (get_filename_without_extension videoPath)) []) o with
    | (.error e, fs2) => (.error e, fs2)
    | (.ok transcribed, fs2) =>
      if pyTruthy transcribed then
        if !o.writeOk then (.ok false, fs2)
        else
          (.ok true,
            cleanup
              (fsWrite fs2 (textFileOf (get_filename_without_extension videoPath))
                (transcribed.getD []))
              (audioFileOf (get_filename_without_extension videoPath))
              (chunksDirOf (get_filename_without_extension videoPath))
              use_segmentation o)
      else (.ok false, fs2)

/-! ### Helper lemmas about paths -/

/-- Folding the basename step over a slash-free path appends it to the
accumulator. -/
theorem basename_foldl_no_slash (p : Path) :
    ∀ acc : Path, '/' ∉ p →
      p.foldl (fun acc c => if c = '/' then [] else acc ++ [c]) acc = acc ++ p := by
  induction p with
  | nil => intro acc _; simp
  | cons c p ih =>
    intro acc h
    have hc : c ≠ '/' := fun hc => h (hc ▸ List.mem_cons_self c p)
    have hp : '/' ∉ p := fun hp => h (List.mem_cons_of_mem c hp)
    simp [List.foldl_cons, if_neg hc, ih (acc ++ [c]) hp]

/-- A slash-free path is its own basename. -/
theorem basename_no_slash (p : Path) (h : '/' ∉ p) : basename p = p := by
  simpa using basename_foldl_no_slash p [] h

/-- `basename` discards everything up to (and including) the last slash. -/
theorem basename_append_slash (d p : Path) :
    basename (d ++ '/' :: p) = basename p := by
  unfold basename
  rw [List.foldl_append, List.foldl_cons, if_pos rfl]

/-- The result of `basename` never contains a slash. -/
theorem basename_mem_ne_slash (p : Path) :
    ∀ acc : Path, '/' ∉ acc →
      '/' ∉ p.foldl (fun acc c => if c = '/' then [] else acc ++ [c]) acc := by
  induction p with
  | nil => intro acc h; simpa using h
  | cons c p ih =>
    intro acc h
    rw [List.foldl_cons]
    by_cases hc : c = '/'
    · rw [if_pos hc]
      exact ih _ (by simp)
    · rw [if_neg hc]
      refine ih _ ?_
      intro hmem
      rcases List.mem_append.1 hmem with hmem | hmem
      · exact h hmem
      · exact hc (List.mem_singleton.1 hmem).symm

theorem no_slash_basename (p : Path) : '/' ∉ basename p :=
  basename_mem_ne_slash p [] (by simp)

/-- `splitextRoot` only rearranges characters of its argument, so a character
absent from the argument is absent from the result. -/
theorem splitextRoot_mem (b : Path) (c : Char) (h : c ∉ b) : c ∉ splitextRoot b := by
  unfold splitextRoot
  split
  · exact h
  · rename_i x rest hd
    have hsub : (x :: rest).Sublist b.reverse := hd ▸ List.dropWhile_sublist _
    split
    · intro hmem
      apply h
      have h1 : c ∈ rest := List.mem_reverse.1 hmem
      have h2 : c ∈ b.reverse := hsub.mem (List.mem_cons_of_mem x h1)
      exact List.mem_reverse.1 h2
    · exact h

theorem no_slash_gfwe (p : Path) : '/' ∉ get_filename_without_extension p :=
  splitextRoot_mem (basename p) '/' (no_slash_basename p)

/-- Dropping the extension-scan over a dot-free block stops at the first
explicit dot. -/
theorem dropWhile_no_dot (l r : Path) (h : '.' ∉ l) :
    (l ++ '.' :: r).dropWhile (fun c => c ≠ '.') = '.' :: r := by
  induction l with
  | nil => simp [List.dropWhile]
  | cons c l ih =>
    have hc : c ≠ '.' := fun hc => h (hc ▸ List.mem_cons_self c l)
    have hl : '.' ∉ l := fun hl => h (List.mem_cons_of_mem c hl)
    have hdec : (decide (c ≠ '.')) = true := by simp [hc]
    rw [List.cons_append, List.dropWhile_cons, hdec]
    simpa using ih hl

/-- On a slash-free stem-plus-extension, `get_filename_without_extension`
returns the stem, whatever the extension. -/
theorem gfwe_stem_ext (b e : Path) (hb0 : b ≠ []) (hbd : '.' ∉ b) (hbs : '/' ∉ b)
    (hed : '.' ∉ e) (hes : '/' ∉ e) :
    get_filename_without_extension (b ++ '.' :: e) = b := by
  have hns : '/' ∉ b ++ '.' :: e := by
    intro hmem
    rcases List.mem_append.1 hmem with hmem | hmem
    · exact hbs hmem
    · rcases List.mem_cons.1 hmem with hmem | hmem
      · exact absurd hmem (by decide)
      · exact hes hmem
  have hany : (b.reverse.any fun c => decide (c ≠ '.')) = true := by
    rcases List.exists_mem_of_ne_nil b hb0 with ⟨x, hx⟩
    simp only [List.any_eq_true, List.mem_reverse, decide_eq_true_eq, ne_eq]
    exact ⟨x, hx, fun hxdot => hbd (hxdot ▸ hx)⟩
  unfold get_filename_without_extension
  rw [basename_no_slash _ hns]
  unfold splitextRoot
  have hrev : (b ++ '.' :: e).reverse = e.reverse ++ '.' :: b.reverse := by
    simp
  rw [hrev, dropWhile_no_dot _ _ (by simpa using hed)]
  show (if (b.reverse.any fun c => decide (c ≠ '.')) = true
      then b.reverse.reverse else b ++ '.' :: e) = b
  rw [if_pos hany, List.reverse_reverse]

/-- Appending different suffixes to the same stem gives different names. -/
theorem append_ne_of_suffix_ne (n a b : Path) (h : a ≠ b) : n ++ a ≠ n ++ b :=
  fun hab => h (List.append_cancel_left hab)

theorem audio_ne_text (n : Path) : audioFileOf n ≠ textFileOf n :=
  append_ne_of_suffix_ne n _ _ (by decide)

theorem text_ne_audio (n : Path) : textFileOf n ≠ audioFileOf n :=
  fun h => audio_ne_text n h.symm

theorem audio_ne_dir (n : Path) : audioFileOf n ≠ chunksDirOf n :=
  append_ne_of_suffix_ne n _ _ (by decide)

theorem dir_ne_audio (n : Path) : chunksDirOf n ≠ audioFileOf n :=
  fun h => audio_ne_dir n h.symm

theorem text_ne_dir (n : Path) : textFileOf n ≠ chunksDirOf n :=
  append_ne_of_suffix_ne n _ _ (by decide)

theorem dir_ne_text (n : Path) : chunksDirOf n ≠ textFileOf n :=
  fun h => text_ne_dir n h.symm

/-! ### Helper lemmas about the filesystem model -/

theorem any_key_filter_ne (fs : FS) (p q : Path) (h : q ≠ p) :
    ((fs.filter (fun e => e.1 != p)).any (fun e => e.1 == q))
      = fs.any (fun e => e.1 == q) := by
  induction fs with
  | nil => rfl
  | cons x fs ih =>
    by_cases hx : x.1 = p
    · simp [List.filter_cons, hx, ih, Ne.symm h]
    · simp [List.filter_cons, hx, ih]

theorem find_key_filter_ne (fs : FS) (p q : Path) (h : q ≠ p) :
    ((fs.filter (fun e => e.1 != p)).find? (fun e => e.1 == q))
      = fs.find? (fun e => e.1 == q) := by
  induction fs with
  | nil => rfl
  | cons x fs ih =>
    by_cases hx : x.1 = p
    · have hxq : (x.1 == q) = false := by
        refine beq_eq_false_iff_ne.2 ?_
        rw [hx]; exact Ne.symm h
      have hfp : (x.1 != p) = false := by simp [hx]
      simp [List.filter_cons, hfp, List.find?, hxq, ih]
    · have hfp : (x.1 != p) = true := by simp [hx]
      by_cases hq : (x.1 == q) = true
      · simp [List.filter_cons, hfp, List.find?, hq]
      · have hq2 : (x.1 == q) = false := by simpa using hq
        simp [List.filter_cons, hfp, List.find?, hq2, ih]

theorem fsExists_write_self (fs : FS) (p : Path) (c : List Char) :
    fsExists (fsWrite fs p c) p = true := by
  simp [fsExists, fsWrite]

theorem fsExists_write_ne (fs : FS) (p q : Path) (c : List Char) (h : q ≠ p) :
    fsExists (fsWrite fs p c) q = fsExists fs q := by
  simp [fsExists, fsWrite, List.any_cons, Ne.symm h, any_key_filter_ne fs p q h]

theorem fsGet_write_self (fs : FS) (p : Path) (c : List Char) :
    fsGet (fsWrite fs p c) p = some c := by
  simp [fsGet, fsWrite, List.find?]

theorem fsGet_write_ne (fs : FS) (p q : Path) (c : List Char) (h : q ≠ p) :
    fsGet (fsWrite fs p c) q = fsGet fs q := by
  have hpq : (p == q) = false := beq_eq_false_iff_ne.2 (Ne.symm h)
  simp [fsGet, fsWrite, List.find?, hpq, find_key_filter_ne fs p q h]

theorem fsExists_remove_self (fs : FS) (p : Path) :
    fsExists (fsRemove fs p) p = false := by
  induction fs with
  | nil => rfl
  | cons x fs ih =>
    by_cases hx : x.1 = p
    · simpa [fsRemove, fsExists, List.filter_cons, hx] using ih
    · simpa [fsRemove, fsExists, List.filter_cons, hx] using ih

theorem fsExists_remove_ne (fs : FS) (p q : Path) (h : q ≠ p) :
    fsExists (fsRemove fs p) q = fsExists fs q := by
  simpa [fsRemove, fsExists] using any_key_filter_ne fs p q h

theorem fsGet_remove_ne (fs : FS) (p q : Path) (h : q ≠ p) :
    fsGet (fsRemove fs p) q = fsGet fs q := by
  simp [fsRemove, fsGet, find_key_filter_ne fs p q h]

theorem fsExists_rmtree_self (fs : FS) (d : Path) :
    fsExists (fsRmtree fs d) d = false := by
  induction fs with
  | nil => rfl
  | cons x fs ih =>
    by_cases hx : x.1 = d
    · simpa [fsRmtree, fsExists, List.filter_cons, hx] using ih
    · by_cases hu : x.1.take (d.length + 1) = d ++ ['/']
      · simpa [fsRmtree, fsExists, List.filter_cons, hx, hu] using ih
      · simpa [fsRmtree, fsExists, List.filter_cons, hx, hu] using ih

theorem fsExists_rmtree_of_false (fs : FS) (d p : Path)
    (h : fsExists fs p = false) : fsExists (fsRmtree fs d) p = false := by
  induction fs with
  | nil => rfl
  | cons x fs ih =>
    simp only [fsExists, List.any_cons, Bool.or_eq_false_iff] at h
    have ih2 := ih h.2
    unfold fsRmtree at ih2 ⊢
    rw [List.filter_cons]
    by_cases hk : (!(x.1 == d || x.1.take (d.length + 1) == d ++ ['/'])) = true
    · rw [if_pos hk]
      simpa [fsExists, List.any_cons, h.1] using ih2
    · rw [if_neg hk]
      exact ih2

/-! ### Lemmas about the chunk loop -/

theorem range_map_shift {α : Type} (g : Nat → α) (i fuel : Nat) :
    (List.range (fuel + 1)).map (fun k => g (i + k))
      = g i :: (List.range fuel).map (fun k => g (i + 1 + k)) := by
  rw [List.range_succ_eq_map, List.map_cons, List.map_map]
  simp only [Nat.add_zero]
  refine congrArg (fun l => g i :: l) (List.map_congr_left ?_)
  intro k _
  simp only [Function.comp]
  congr 1
  omega

/-- When every export and transcription from chunk `i` on succeeds, the loop
returns all the per-chunk texts in order (whatever the `os.remove` outcomes)
and records exactly one snapshot per chunk. -/
theorem segLoop_ok (o : SegOracle) (f : Nat → List Char) :
    ∀ (fuel i : Nat) (disk : List Nat) (snaps : List (List Nat)) (texts : List (List Char)),
      (∀ k, k < fuel → o.exportOk (i + k) = true ∧ o.chunkText (i + k) = some (f (i + k))) →
      (segLoop o i fuel disk snaps texts).1
          = some (texts ++ (List.range fuel).map (fun k => f (i + k)))
        ∧ (segLoop o i fuel disk snaps texts).2.1.length = snaps.length + fuel
  | 0, i, disk, snaps, texts, h => by simp [segLoop]
  | fuel + 1, i, disk, snaps, texts, h => by
    have h0 := h 0 (Nat.succ_pos _)
    rw [Nat.add_zero] at h0
    have hrec := segLoop_ok o f fuel (i + 1)
      (if o.removeOk i then (disk ++ [i]).filter (fun j => j != i) else disk ++ [i])
      (snaps ++ [disk ++ [i]]) (texts ++ [f i])
      (fun k hk => by
        have hkk := h (k + 1) (Nat.succ_lt_succ hk)
        have heq : i + (k + 1) = i + 1 + k := by omega
        rwa [heq] at hkk)
    simp only [segLoop, h0.1, h0.2, if_true]
    constructor
    · rw [hrec.1, range_map_shift]
      simp
    · rw [hrec.2]
      simp only [List.length_append, List.length_cons, List.length_nil]
      omega

/-- When additionally every `os.remove` succeeds and the loop starts with an
empty chunk directory, each snapshot holds exactly the one current chunk
file and the directory ends empty. -/
theorem segLoop_clean (o : SegOracle) (f : Nat → List Char) :
    ∀ (fuel i : Nat) (snaps : List (List Nat)) (texts : List (List Char)),
      (∀ k, k < fuel → o.exportOk (i + k) = true ∧ o.chunkText (i + k) = some (f (i + k))
          ∧ o.removeOk (i + k) = true) →
      segLoop o i fuel [] snaps texts
        = (some (texts ++ (List.range fuel).map (fun k => f (i + k))),
           snaps ++ (List.range fuel).map (fun k => [i + k]), [])
  | 0, i, snaps, texts, h => by simp [segLoop]
  | fuel + 1, i, snaps, texts, h => by
    have h0 := h 0 (Nat.succ_pos _)
    rw [Nat.add_zero] at h0
    have hrec := segLoop_clean o f fuel (i + 1) (snaps ++ [[] ++ [i]]) (texts ++ [f i])
      (fun k hk => by
        have hkk := h (k + 1) (Nat.succ_lt_succ hk)
        have heq : i + (k + 1) = i + 1 + k := by omega
        rwa [heq] at hkk)
    have hfilter : (([] : List Nat) ++ [i]).filter (fun j => j != i) = [] := by simp
    simp only [segLoop, h0.1, h0.2.1, h0.2.2, if_true, hfilter]
    rw [hrec, range_map_shift f i fuel, range_map_shift (fun n => [n]) i fuel]
    simp

/-- If chunk `i + j` is the first whose transcription raises, the loop stops
there with a `none` result, having exported exactly `j + 1` chunks. -/
theorem segLoop_abort (o : SegOracle) (f : Nat → List Char) :
    ∀ (j fuel i : Nat) (disk : List Nat) (snaps : List (List Nat)) (texts : List (List Char)),
      j < fuel →
      (∀ k, k < j → o.exportOk (i + k) = true ∧ o.chunkText (i + k) = some (f (i + k))) →
      o.exportOk (i + j) = true → o.chunkText (i + j) = none →
      (segLoop o i fuel disk snaps texts).1 = none
        ∧ (segLoop o i fuel disk snaps texts).2.1.length = snaps.length + j + 1
  | j, 0, i, disk, snaps, texts, hj, hpre, hexp, htr =>
    absurd hj (Nat.not_lt_zero j)
  | 0, fuel + 1, i, disk, snaps, texts, hj, hpre, hexp, htr => by
    rw [Nat.add_zero] at hexp htr
    simp [segLoop, hexp, htr]
  | j + 1, fuel + 1, i, disk, snaps, texts, hj, hpre, hexp, htr => by
    have h0 := hpre 0 (Nat.succ_pos _)
    rw [Nat.add_zero] at h0
    have heq : i + 1 + j = i + (j + 1) := by omega
    have hrec := segLoop_abort o f j fuel (i + 1)
      (if o.removeOk i then (disk ++ [i]).filter (fun k => k != i) else disk ++ [i])
      (snaps ++ [disk ++ [i]]) (texts ++ [f i])
      (Nat.lt_of_succ_lt_succ hj)
      (fun k hk => by
        have hkk := hpre (k + 1) (Nat.succ_lt_succ hk)
        have heq2 : i + (k + 1) = i + 1 + k := by omega
        rwa [heq2] at hkk)
      (by rwa [heq]) (by rwa [heq])
    simp only [segLoop, h0.1, h0.2, if_true]
    constructor
    · exact hrec.1
    · rw [hrec.2]
      simp only [List.length_append, List.length_cons, List.length_nil]
      omega

/-! ### Evaluation lemmas for the orchestrator -/

/-- A fully successful segmented run, as one structure equality: transcript
joined in order, one snapshot per chunk, empty chunk directory at return. -/
theorem split_success (d : Bool) (msl st : Int) (o : SegOracle) (f : Nat → List Char)
    (hmk : o.mkdirFails = false) (hla : o.loadAudioOk = true)
    (hsp : o.splitOk = true) (hlm : o.loadModelOk = true)
    (hall : ∀ k, k < o.numChunks → o.exportOk k = true ∧ o.chunkText k = some (f k)
        ∧ o.removeOk k = true) :
    split_and_transcribe_audio d msl st o
      = ⟨.ok (some (joinSpace ((List.range o.numChunks).map f))),
         (List.range o.numChunks).map (fun k => [k]), []⟩ := by
  have hclean := segLoop_clean o f o.numChunks 0 [] []
    (fun k hk => by simpa using hall k hk)
  have hcond : (!d && o.mkdirFails) = false := by simp [hmk]
  unfold split_and_transcribe_audio
  rw [hcond]
  simp only [hla, hsp, hlm, Bool.not_true, Bool.false_eq_true, if_false]
  rw [hclean]
  simp

/-- Direct-mode run in which extraction succeeds and the transcriber yields
a non-empty transcript and the write succeeds: the orchestrator returns
True with the written output followed by cleanup. -/
theorem process_direct_success (videoPath : Path) (fs : FS) (o : OrchOracle) (t : List Char)
    (hv : fsExists fs videoPath = true) (hx : o.extractOk = true)
    (hlm : o.direct.loadModelOk = true) (htr : o.direct.transcribeResult = some t)
    (hne : t.isEmpty = false) (hw : o.writeOk = true) :
    process_video_to_text videoPath false fs o
      = (.ok true,
         cleanup
           (fsWrite (fsWrite fs (audioFileOf (get_filename_without_extension videoPath)) [])
             (textFileOf (get_filename_without_extension videoPath)) t)
           (audioFileOf (get_filename_without_extension videoPath))
           (chunksDirOf (get_filename_without_extension videoPath)) false o) := by
  unfold process_video_to_text orchTranscribe transcribe_audio_with_whisper
  simp [hv, hx, hlm, htr, hne, hw, pyTruthy]

/-- Direct-mode run in which extraction succeeds but the transcriber
returns `None`: the orchestrator returns False right away, leaving the
extracted temporary audio file in place. -/
theorem process_direct_none (videoPath : Path) (fs : FS) (o : OrchOracle)
    (hv : fsExists fs videoPath = true) (hx : o.extractOk = true)
    (hnone : transcribe_audio_with_whisper o.direct = none) :
    process_video_to_text videoPath false fs o
      = (.ok false,
         fsWrite fs (audioFileOf (get_filename_without_extension videoPath)) []) := by
  unfold process_video_to_text orchTranscribe
  simp [hv, hx, hnone, pyTruthy]

/-- In direct mode, cleanup just removes the existing temporary audio
file. -/
theorem cleanup_direct (fs : FS) (a d : Path) (o : OrchOracle)
    (ha : fsExists fs a = true) (hra : o.removeAudioOk = true) :
    cleanup fs a d false o = fsRemove fs a := by
  simp [cleanup, ha, hra, cleanupDir]

/-- In segmented mode, when both cleanup calls succeed and both artifacts
exist, cleanup removes the audio file then the chunk directory tree. -/
theorem cleanup_seg (fs : FS) (a dd : Path) (o : OrchOracle)
    (ha : fsExists fs a = true) (hd : fsExists (fsRemove fs a) dd = true)
    (hra : o.removeAudioOk = true) (hrt : o.rmtreeOk = true) :
    cleanup fs a dd true o = fsRmtree (fsRemove fs a) dd := by
  simp [cleanup, ha, hra, cleanupDir, hd, hrt]

/-- Segmented-mode run in which extraction and every chunk step succeed,
the chunk directory was initially absent, the joined transcript is
non-empty and the write succeeds: the orchestrator returns True after
writing the transcript and cleaning up. -/
theorem process_seg_success (videoPath : Path) (fs : FS) (o : OrchOracle) (f : Nat → List Char)
    (hv : fsExists fs videoPath = true) (hx : o.extractOk = true)
    (hmk : o.seg.mkdirFails = false) (hla : o.seg.loadAudioOk = true)
    (hsp : o.seg.splitOk = true) (hlm : o.seg.loadModelOk = true)
    (hall : ∀ k, k < o.seg.numChunks → o.seg.exportOk k = true
        ∧ o.seg.chunkText k = some (f k) ∧ o.seg.removeOk k = true)
    (hdir : fsExists fs (chunksDirOf (get_filename_without_extension videoPath)) = false)
    (hjt : (joinSpace ((List.range o.seg.numChunks).map f)).isEmpty = false)
    (hw : o.writeOk = true) :
    process_video_to_text videoPath true fs o
      = (.ok true,
         cleanup
           (fsWrite
             (fsWrite
               (fsWrite fs (audioFileOf (get_filename_without_extension videoPath)) [])
               (chunksDirOf (get_filename_without_extension videoPath)) [])
             (textFileOf (get_filename_without_extension videoPath))
             (joinSpace ((List.range o.seg.numChunks).map f)))
           (audioFileOf (get_filename_without_extension videoPath))
           (chunksDirOf (get_filename_without_extension videoPath)) true o) := by
  have hd1 : fsExists
      (fsWrite fs (audioFileOf (get_filename_without_extension videoPath)) [])
      (chunksDirOf (get_filename_without_extension videoPath)) = false := by
    rw [fsExists_write_ne _ _ _ _
      (dir_ne_audio (get_filename_without_extension videoPath))]
    exact hdir
  have hsplit := split_success
    (fsExists (fsWrite fs (audioFileOf (get_filename_without_extension videoPath)) [])
      (chunksDirOf (get_filename_without_extension videoPath)))
    orch_min_silence_len orch_silence_thresh o.seg f hmk hla hsp hlm hall
  unfold process_video_to_text orchTranscribe
  rw [hsplit]
  simp [hv, hx, hd1, hmk, pyTruthy, hjt, hw]

/-! ### Claim theorems -/

/-- C4 counterexample: the claim says the orchestrator's segmented-mode
silence parameters are a longer minimum silence AND a silence threshold
lower than the default -40 dB.  The conjunction is false: the orchestrator
passes `silence_thresh = -35`, which is not lower than -40. -/
theorem C4_counterexample :
    ¬(default_min_silence_len < orch_min_silence_len
      ∧ orch_silence_thresh < default_silence_thresh) := by decide

/-- C4 (amended): the orchestrator's `min_silence_len` (700 ms) is longer
than the default 500 ms, but its `silence_thresh` (-35 dB) is HIGHER than
the default -40 dB, not lower. -/
theorem C4_amended_params :
    default_min_silence_len < orch_min_silence_len
      ∧ default_silence_thresh < orch_silence_thresh := by decide

/-- C7: for a video path with no file, `process_video_to_text` returns
`False` and leaves the filesystem exactly as it was — no audio extraction,
no output file, no temporary artifact. -/
theorem C7_missing_video (videoPath : Path) (useSeg : Bool) (fs : FS) (o : OrchOracle)
    (h : fsExists fs videoPath = false) :
    process_video_to_text videoPath useSeg fs o = (.ok false, fs) := by
  simp [process_video_to_text, h]

/-- C7 witness at a concrete input. -/
theorem C7_missing_video_witness :
    process_video_to_text "clip.mp4".toList false []
      ⟨true, ⟨true, some ['a']⟩,
       ⟨false, true, true, 0, true, fun _ => true, fun _ => some [], fun _ => true⟩,
       true, true, true⟩ = (.ok false, []) :=
  C7_missing_video _ _ _ _ (by decide)

/-- C3 counterexample: with the chunk directory absent and `os.makedirs`
raising, `split_and_transcribe_audio` lets the exception escape instead of
returning `None` — the `makedirs` call (lines 41-42) sits before the `try`
block (line 44). -/
theorem C3_counterexample :
    (split_and_transcribe_audio false default_min_silence_len default_silence_thresh
      ⟨true, true, true, 0, true, fun _ => true, fun _ => some [], fun _ => true⟩).result
      = .error () := by decide

/-- C3 (amended): every failure AFTER directory creation (audio decoding,
silence splitting, model loading, chunk export, chunk transcription) is
caught at its origin and converted into a `None` return; only a failure of
`os.makedirs` itself, when the directory is absent, escapes as an
exception. -/
theorem C3_amended_no_exception (dirExists : Bool) (msl st : Int) (o : SegOracle)
    (h : dirExists = true ∨ o.mkdirFails = false) :
    (split_and_transcribe_audio dirExists msl st o).result ≠ .error () := by
  have hcond : (!dirExists && o.mkdirFails) = false := by
    rcases h with h | h <;> simp [h]
  unfold split_and_transcribe_audio
  rw [hcond]
  simp only [Bool.false_eq_true, if_false]
  split
  · simp
  · split
    · simp
    · split
      · simp
      · split <;> simp

/-- C3 amended witness: a failing audio decode with the directory present is
caught and surfaces as `None`, not as an exception. -/
theorem C3_amended_witness :
    (split_and_transcribe_audio true default_min_silence_len default_silence_thresh
      ⟨true, false, true, 0, true, fun _ => true, fun _ => some [], fun _ => true⟩).result
      ≠ .error () :=
  C3_amended_no_exception true _ _ _ (Or.inl rfl)

/-- C5: in segmented mode, if transcription of chunk `j` raises while every
earlier chunk export and transcription succeeded, the whole run returns
`None` — no partial transcript — and exactly `j + 1` chunk files were ever
written, so no chunk after the failing one is processed. -/
theorem C5_chunk_failure_aborts (d : Bool) (msl st : Int) (o : SegOracle)
    (f : Nat → List Char) (j : Nat)
    (hmk : o.mkdirFails = false) (hla : o.loadAudioOk = true)
    (hsp : o.splitOk = true) (hlm : o.loadModelOk = true)
    (hj : j < o.numChunks)
    (hpre : ∀ k, k < j → o.exportOk k = true ∧ o.chunkText k = some (f k))
    (hexp : o.exportOk j = true) (htr : o.chunkText j = none) :
    (split_and_transcribe_audio d msl st o).result = .ok none
      ∧ (split_and_transcribe_audio d msl st o).snapshots.length = j + 1 := by
  have habort := segLoop_abort o f j o.numChunks 0 [] [] [] hj
    (fun k hk => by simpa using hpre k hk) (by simpa using hexp) (by simpa using htr)
  have hcond : (!d && o.mkdirFails) = false := by simp [hmk]
  unfold split_and_transcribe_audio
  rw [hcond]
  simp only [hla, hsp, hlm, Bool.not_true, Bool.false_eq_true, if_false]
  rcases hseg : segLoop o 0 o.numChunks [] [] [] with ⟨r, snaps, disk⟩
  rw [hseg] at habort
  rcases r with _ | texts
  · refine ⟨rfl, ?_⟩
    have := habort.2
    simpa using this
  · exact absurd habort.1 (by simp)

/-- C5 witness: two chunks, the second one's transcription raises. -/
theorem C5_witness :
    (split_and_transcribe_audio false orch_min_silence_len orch_silence_thresh
      ⟨false, true, true, 2, true, fun _ => true,
       fun i => if i = 0 then some ['a'] else none, fun _ => true⟩).result = .ok none
    ∧ (split_and_transcribe_audio false orch_min_silence_len orch_silence_thresh
      ⟨false, true, true, 2, true, fun _ => true,
       fun i => if i = 0 then some ['a'] else none, fun _ => true⟩).snapshots.length = 2 :=
  C5_chunk_failure_aborts false orch_min_silence_len orch_silence_thresh _ (fun _ => ['a']) 1
    rfl rfl rfl rfl (by decide)
    (fun k hk => by
      have hk0 : k = 0 := by omega
      subst hk0
      exact ⟨rfl, rfl⟩)
    rfl rfl

/-- C6: a failed chunk-file deletion does not abort the segmented run: with
every export and transcription succeeding but `os.remove` failing on chunk
`j`, the run still returns the full space-joined transcript, and every one
of the `numChunks` chunks was written and transcribed. -/
theorem C6_remove_failure_tolerated (d : Bool) (msl st : Int) (o : SegOracle)
    (f : Nat → List Char) (j : Nat)
    (hmk : o.mkdirFails = false) (hla : o.loadAudioOk = true)
    (hsp : o.splitOk = true) (hlm : o.loadModelOk = true)
    (hall : ∀ k, k < o.numChunks → o.exportOk k = true ∧ o.chunkText k = some (f k))
    (hj : j < o.numChunks) (hrm : o.removeOk j = false) :
    (split_and_transcribe_audio d msl st o).result
        = .ok (some (joinSpace ((List.range o.numChunks).map f)))
      ∧ (split_and_transcribe_audio d msl st o).snapshots.length = o.numChunks := by
  have hok := segLoop_ok o f o.numChunks 0 [] [] []
    (fun k hk => by simpa using hall k hk)
  have hcond : (!d && o.mkdirFails) = false := by simp [hmk]
  unfold split_and_transcribe_audio
  rw [hcond]
  simp only [hla, hsp, hlm, Bool.not_true, Bool.false_eq_true, if_false]
  rcases hseg : segLoop o 0 o.numChunks [] [] [] with ⟨r, snaps, disk⟩
  rw [hseg] at hok
  rcases r with _ | texts
  · exact absurd hok.1 (by simp)
  · have h1 : texts = (List.range o.numChunks).map f := by
      have := hok.1
      simpa [Nat.zero_add] using this
    refine ⟨?_, ?_⟩
    · simp [h1]
    · have := hok.2
      simpa using this

/-- C6 witness: two chunks, deletion of chunk 0 fails, full transcript
"a b" still returned with both chunks processed. -/
theorem C6_witness :
    (split_and_transcribe_audio true orch_min_silence_len orch_silence_thresh
      ⟨false, true, true, 2, true, fun _ => true,
       fun i => if i = 0 then some ['a'] else some ['b'],
       fun i => i != 0⟩).result = .ok (some "a b".toList)
    ∧ (split_and_transcribe_audio true orch_min_silence_len orch_silence_thresh
      ⟨false, true, true, 2, true, fun _ => true,
       fun i => if i = 0 then some ['a'] else some ['b'],
       fun i => i != 0⟩).snapshots.length = 2 :=
  C6_remove_failure_tolerated true orch_min_silence_len orch_silence_thresh _
    (fun i => if i = 0 then ['a'] else ['b']) 0
    rfl rfl rfl rfl
    (fun k hk => by
      have hk2 : k < 2 := hk
      have : k = 0 ∨ k = 1 := by omega
      rcases this with h | h <;> subst h <;> exact ⟨rfl, rfl⟩)
    (by decide) rfl

/-- C2 counterexample: a SUCCESSFUL segmented run in which the deletion of
chunk 0 fails (tolerated by the inner try/except, lines 68-72).  The run
returns the joined transcript "a b", but the snapshot taken just after
chunk 1 was written shows chunk files 0 and 1 on disk simultaneously, and
chunk 0 is still on disk when the run returns: chunk 0 was not deleted
before the next chunk was written, refuting the claim's universal
"at most one chunk file on disk at a time". -/
theorem C2_counterexample :
    (split_and_transcribe_audio true orch_min_silence_len orch_silence_thresh
      ⟨false, true, true, 2, true, fun _ => true,
       fun i => if i = 0 then some ['a'] else some ['b'],
       fun i => i != 0⟩).result = .ok (some "a b".toList)
    ∧ (split_and_transcribe_audio true orch_min_silence_len orch_silence_thresh
      ⟨false, true, true, 2, true, fun _ => true,
       fun i => if i = 0 then some ['a'] else some ['b'],
       fun i => i != 0⟩).snapshots = [[0], [0, 1]]
    ∧ (split_and_transcribe_audio true orch_min_silence_len orch_silence_thresh
      ⟨false, true, true, 2, true, fun _ => true,
       fun i => if i = 0 then some ['a'] else some ['b'],
       fun i => i != 0⟩).diskAfter = [0] := by decide

/-- C2 (amended): for every successful segmented run the returned transcript
is the space-join, in chunk order, of the per-chunk transcripts; deletion
of each chunk file is ATTEMPTED immediately after its transcription, and
when every deletion succeeds each disk snapshot holds exactly the one
current chunk file (at most one chunk file on disk at a time) and no chunk
file remains at the end.  When a deletion fails the chunk file persists
(see the counterexample). -/
theorem C2_amended_join_single_chunk (d : Bool) (msl st : Int) (o : SegOracle)
    (f : Nat → List Char)
    (hmk : o.mkdirFails = false) (hla : o.loadAudioOk = true)
    (hsp : o.splitOk = true) (hlm : o.loadModelOk = true)
    (hall : ∀ k, k < o.numChunks → o.exportOk k = true ∧ o.chunkText k = some (f k)
        ∧ o.removeOk k = true) :
    (split_and_transcribe_audio d msl st o).result
        = .ok (some (joinSpace ((List.range o.numChunks).map f)))
      ∧ (split_and_transcribe_audio d msl st o).snapshots
          = (List.range o.numChunks).map (fun k => [k])
      ∧ (split_and_transcribe_audio d msl st o).diskAfter = [] := by
  rw [split_success d msl st o f hmk hla hsp hlm hall]
  exact ⟨rfl, rfl, rfl⟩

/-- C2 amended witness: two chunks, all operations succeed. -/
theorem C2_amended_witness :
    (split_and_transcribe_audio true orch_min_silence_len orch_silence_thresh
      ⟨false, true, true, 2, true, fun _ => true,
       fun i => if i = 0 then some ['a'] else some ['b'],
       fun _ => true⟩).result = .ok (some "a b".toList)
    ∧ (split_and_transcribe_audio true orch_min_silence_len orch_silence_thresh
      ⟨false, true, true, 2, true, fun _ => true,
       fun i => if i = 0 then some ['a'] else some ['b'],
       fun _ => true⟩).snapshots = [[0], [1]]
    ∧ (split_and_transcribe_audio true orch_min_silence_len orch_silence_thresh
      ⟨false, true, true, 2, true, fun _ => true,
       fun i => if i = 0 then some ['a'] else some ['b'],
       fun _ => true⟩).diskAfter = [] :=
  C2_amended_join_single_chunk true orch_min_silence_len orch_silence_thresh _
    (fun i => if i = 0 then ['a'] else ['b'])
    rfl rfl rfl rfl
    (fun k hk => by
      have hk2 : k < 2 := hk
      have : k = 0 ∨ k = 1 := by omega
      rcases this with h | h <;> subst h <;> exact ⟨rfl, rfl, rfl⟩)

/-- C1 counterexample: a concrete run on an existing video `v.mp4` in which
audio extraction succeeds but model loading fails, so the direct
transcriber returns null.  The orchestrator returns False at line 145,
BEFORE the cleanup block at line 147, and the already-extracted temporary
audio file `v_temp_audio.mp3` is still on disk when the run ends —
refuting the claim that it is deleted regardless of transcription
outcome. -/
theorem C1_counterexample :
    (process_video_to_text "v.mp4".toList false [("v.mp4".toList, [])]
      ⟨true, ⟨false, none⟩,
       ⟨false, true, true, 0, true, fun _ => true, fun _ => none, fun _ => true⟩,
       true, true, true⟩).1 = .ok false
    ∧ fsExists (process_video_to_text "v.mp4".toList false [("v.mp4".toList, [])]
      ⟨true, ⟨false, none⟩,
       ⟨false, true, true, 0, true, fun _ => true, fun _ => none, fun _ => true⟩,
       true, true, true⟩).2 (audioFileOf "v".toList) = true := by decide

/-- C1 (amended): temporary artifacts are removed only at the end of a
FULLY successful run (non-null, non-empty transcript and successful output
write), assuming the cleanup deletions themselves succeed: in direct mode
the temporary audio file is then gone, and in segmented mode the chunk
directory is gone as well.  When the transcriber returns null — for
example because model loading failed — the orchestrator returns False
before the cleanup step and the already-extracted temporary audio file
REMAINS on disk. -/
theorem C1_amended_cleanup (videoPath : Path) (fs : FS) (o : OrchOracle)
    (hv : fsExists fs videoPath = true) (hx : o.extractOk = true)
    (hra : o.removeAudioOk = true) (hrt : o.rmtreeOk = true) :
    (∀ t, o.direct.loadModelOk = true → o.direct.transcribeResult = some t →
        t.isEmpty = false → o.writeOk = true →
        (process_video_to_text videoPath false fs o).1 = .ok true
          ∧ fsExists (process_video_to_text videoPath false fs o).2
              (audioFileOf (get_filename_without_extension videoPath)) = false)
    ∧ (o.direct.loadModelOk = false →
        (process_video_to_text videoPath false fs o).1 = .ok false
          ∧ fsExists (process_video_to_text videoPath false fs o).2
              (audioFileOf (get_filename_without_extension videoPath)) = true)
    ∧ (∀ f, o.seg.mkdirFails = false → o.seg.loadAudioOk = true →
        o.seg.splitOk = true → o.seg.loadModelOk = true →
        (∀ k, k < o.seg.numChunks → o.seg.exportOk k = true
            ∧ o.seg.chunkText k = some (f k) ∧ o.seg.removeOk k = true) →
        fsExists fs (chunksDirOf (get_filename_without_extension videoPath)) = false →
        (joinSpace ((List.range o.seg.numChunks).map f)).isEmpty = false →
        o.writeOk = true →
        (process_video_to_text videoPath true fs o).1 = .ok true
          ∧ fsExists (process_video_to_text videoPath true fs o).2
              (audioFileOf (get_filename_without_extension videoPath)) = false
          ∧ fsExists (process_video_to_text videoPath true fs o).2
              (chunksDirOf (get_filename_without_extension videoPath)) = false) := by
  refine ⟨?_, ?_, ?_⟩
  · intro t hlm htr hne hw
    rw [process_direct_success videoPath fs o t hv hx hlm htr hne hw]
    refine ⟨rfl, ?_⟩
    have ha : fsExists
        (fsWrite (fsWrite fs (audioFileOf (get_filename_without_extension videoPath)) [])
          (textFileOf (get_filename_without_extension videoPath)) t)
        (audioFileOf (get_filename_without_extension videoPath)) = true := by
      rw [fsExists_write_ne _ _ _ _
        (audio_ne_text (get_filename_without_extension videoPath))]
      exact fsExists_write_self _ _ _
    rw [cleanup_direct _ _ _ _ ha hra]
    exact fsExists_remove_self _ _
  · intro hlm
    have hnone : transcribe_audio_with_whisper o.direct = none := by
      simp [transcribe_audio_with_whisper, hlm]
    rw [process_direct_none videoPath fs o hv hx hnone]
    exact ⟨rfl, fsExists_write_self _ _ _⟩
  · intro f hmk hla hsp hlm2 hall hdir hjt hw
    rw [process_seg_success videoPath fs o f hv hx hmk hla hsp hlm2 hall hdir hjt hw]
    have ha : fsExists
        (fsWrite
          (fsWrite
            (fsWrite fs (audioFileOf (get_filename_without_extension videoPath)) [])
            (chunksDirOf (get_filename_without_extension videoPath)) [])
          (textFileOf (get_filename_without_extension videoPath))
          (joinSpace ((List.range o.seg.numChunks).map f)))
        (audioFileOf (get_filename_without_extension videoPath)) = true := by
      rw [fsExists_write_ne _ _ _ _
        (audio_ne_text (get_filename_without_extension videoPath))]
      rw [fsExists_write_ne _ _ _ _
        (audio_ne_dir (get_filename_without_extension videoPath))]
      exact fsExists_write_self _ _ _
    have hd : fsExists
        (fsRemove
          (fsWrite
            (fsWrite
              (fsWrite fs (audioFileOf (get_filename_without_extension videoPath)) [])
              (chunksDirOf (get_filename_without_extension videoPath)) [])
            (textFileOf (get_filename_without_extension videoPath))
            (joinSpace ((List.range o.seg.numChunks).map f)))
          (audioFileOf (get_filename_without_extension videoPath)))
        (chunksDirOf (get_filename_without_extension videoPath)) = true := by
      rw [fsExists_remove_ne _ _ _
        (dir_ne_audio (get_filename_without_extension videoPath))]
      rw [fsExists_write_ne _ _ _ _
        (dir_ne_text (get_filename_without_extension videoPath))]
      exact fsExists_write_self _ _ _
    rw [cleanup_seg _ _ _ _ ha hd hra hrt]
    refine ⟨rfl, ?_, ?_⟩
    · exact fsExists_rmtree_of_false _ _ _ (fsExists_remove_self _ _)
    · exact fsExists_rmtree_self _ _

/-- C1 amended witness: a fully successful direct-mode run on `v.mp4`
deletes the temporary audio file. -/
theorem C1_amended_witness :
    (process_video_to_text "v.mp4".toList false [("v.mp4".toList, [])]
      ⟨true, ⟨true, some ['a']⟩,
       ⟨false, true, true, 0, true, fun _ => true, fun _ => none, fun _ => true⟩,
       true, true, true⟩).1 = .ok true
    ∧ fsExists (process_video_to_text "v.mp4".toList false [("v.mp4".toList, [])]
      ⟨true, ⟨true, some ['a']⟩,
       ⟨false, true, true, 0, true, fun _ => true, fun _ => none, fun _ => true⟩,
       true, true, true⟩).2 (audioFileOf "v".toList) = false :=
  (C1_amended_cleanup "v.mp4".toList [("v.mp4".toList, [])]
      ⟨true, ⟨true, some ['a']⟩,
       ⟨false, true, true, 0, true, fun _ => true, fun _ => none, fun _ => true⟩,
       true, true, true⟩
      (by decide) rfl rfl rfl).1 ['a'] rfl rfl rfl rfl

/-- C9: transcription that completes without error but yields the EMPTY
string — segmented mode with zero silence-delimited chunks, where
`" ".join([])` is `""` — is treated exactly like a transcription failure:
the orchestrator returns False, writes no output text file, and skips the
cleanup step, leaving the temporary audio file on disk. -/
theorem C9_empty_transcript_failure (videoPath : Path) (fs : FS) (o : OrchOracle)
    (hv : fsExists fs videoPath = true) (hx : o.extractOk = true)
    (hmk : o.seg.mkdirFails = false) (hla : o.seg.loadAudioOk = true)
    (hsp : o.seg.splitOk = true) (hlm : o.seg.loadModelOk = true)
    (hn : o.seg.numChunks = 0)
    (ht : fsExists fs (textFileOf (get_filename_without_extension videoPath)) = false) :
    (process_video_to_text videoPath true fs o).1 = .ok false
      ∧ fsExists (process_video_to_text videoPath true fs o).2
          (audioFileOf (get_filename_without_extension videoPath)) = true
      ∧ fsExists (process_video_to_text videoPath true fs o).2
          (textFileOf (get_filename_without_extension videoPath)) = false := by
  have hsplit := split_success
    (fsExists (fsWrite fs (audioFileOf (get_filename_without_extension videoPath)) [])
      (chunksDirOf (get_filename_without_extension videoPath)))
    orch_min_silence_len orch_silence_thresh o.seg (fun _ => [])
    hmk hla hsp hlm
    (fun k hk => by rw [hn] at hk; exact absurd hk (Nat.not_lt_zero k))
  rw [hn] at hsplit
  simp only [List.range_zero, List.map_nil, joinSpace] at hsplit
  unfold process_video_to_text orchTranscribe
  rw [hsplit]
  simp only [hv, hx, Bool.not_true, Bool.false_eq_true, if_false, if_true,
    List.foldl_nil, pyTruthy, List.isEmpty_nil, Bool.not_true]
  refine ⟨trivial, ?_, ?_⟩
  · by_cases hd : fsExists
        (fsWrite fs (audioFileOf (get_filename_without_extension videoPath)) [])
        (chunksDirOf (get_filename_without_extension videoPath)) = true
    · simp only [hd, if_true]
      exact fsExists_write_self _ _ _
    · simp only [hd, if_false, hmk, Bool.false_eq_true]
      rw [fsExists_write_ne _ _ _ _
        (audio_ne_dir (get_filename_without_extension videoPath))]
      exact fsExists_write_self _ _ _
  · have h1 : fsExists
        (fsWrite fs (audioFileOf (get_filename_without_extension videoPath)) [])
        (textFileOf (get_filename_without_extension videoPath)) = false := by
      rw [fsExists_write_ne _ _ _ _
        (text_ne_audio (get_filename_without_extension videoPath))]
      exact ht
    by_cases hd : fsExists
        (fsWrite fs (audioFileOf (get_filename_without_extension videoPath)) [])
        (chunksDirOf (get_filename_without_extension videoPath)) = true
    · simp only [hd, if_true]
      exact h1
    · simp only [hd, if_false, hmk, Bool.false_eq_true]
      rw [fsExists_write_ne _ _ _ _
        (text_ne_dir (get_filename_without_extension videoPath))]
      exact h1

/-- C9 witness: concrete segmented run with zero chunks on `v.mp4`. -/
theorem C9_witness :
    (process_video_to_text "v.mp4".toList true [("v.mp4".toList, [])]
      ⟨true, ⟨true, some ['a']⟩,
       ⟨false, true, true, 0, true, fun _ => true, fun _ => some ['a'], fun _ => true⟩,
       true, true, true⟩).1 = .ok false
    ∧ fsExists (process_video_to_text "v.mp4".toList true [("v.mp4".toList, [])]
      ⟨true, ⟨true, some ['a']⟩,
       ⟨false, true, true, 0, true, fun _ => true, fun _ => some ['a'], fun _ => true⟩,
       true, true, true⟩).2 (audioFileOf "v".toList) = true
    ∧ fsExists (process_video_to_text "v.mp4".toList true [("v.mp4".toList, [])]
      ⟨true, ⟨true, some ['a']⟩,
       ⟨false, true, true, 0, true, fun _ => true, fun _ => some ['a'], fun _ => true⟩,
       true, true, true⟩).2 (textFileOf "v".toList) = false :=
  C9_empty_transcript_failure "v.mp4".toList [("v.mp4".toList, [])]
    ⟨true, ⟨true, some ['a']⟩,
     ⟨false, true, true, 0, true, fun _ => true, fun _ => some ['a'], fun _ => true⟩,
     true, true, true⟩
    (by decide) rfl rfl rfl rfl rfl rfl (by decide)

/-- C8: the transcript filename is exactly the input's basename with its
(last) extension stripped plus ".txt" — the same for any extension — and a
successful run OVERWRITES an existing file of that name with the new
transcript (Python write mode), returning success rather than appending or
erroring. -/
theorem C8_output_name_overwrite (b e : List Char) (fs : FS) (o : OrchOracle)
    (t old : List Char)
    (hb0 : b ≠ []) (hbd : '.' ∉ b) (hbs : '/' ∉ b) (hed : '.' ∉ e) (hes : '/' ∉ e)
    (hv : fsExists fs (b ++ '.' :: e) = true) (hx : o.extractOk = true)
    (hlm : o.direct.loadModelOk = true) (htr : o.direct.transcribeResult = some t)
    (hne : t.isEmpty = false) (hw : o.writeOk = true) (hra : o.removeAudioOk = true)
    (hold : fsGet fs (textFileOf b) = some old) :
    textFileOf (get_filename_without_extension (b ++ '.' :: e)) = b ++ ".txt".toList
      ∧ (process_video_to_text (b ++ '.' :: e) false fs o).1 = .ok true
      ∧ fsGet (process_video_to_text (b ++ '.' :: e) false fs o).2
          (textFileOf b) = some t := by
  have hstem := gfwe_stem_ext b e hb0 hbd hbs hed hes
  have hrun := process_direct_success (b ++ '.' :: e) fs o t hv hx hlm htr hne hw
  rw [hstem] at hrun
  refine ⟨by rw [hstem]; rfl, ?_, ?_⟩
  · rw [hrun]
  · rw [hrun]
    have ha : fsExists
        (fsWrite (fsWrite fs (audioFileOf b) []) (textFileOf b) t)
        (audioFileOf b) = true := by
      rw [fsExists_write_ne _ _ _ _ (audio_ne_text b)]
      exact fsExists_write_self _ _ _
    rw [cleanup_direct _ _ _ _ ha hra]
    rw [fsGet_remove_ne _ _ _ (text_ne_audio b)]
    exact fsGet_write_self _ _ _

/-- C8 witness: `clip.mp4` with an existing `clip.txt` containing "old";
after the run `clip.txt` holds exactly the new transcript. -/
theorem C8_witness :
    textFileOf (get_filename_without_extension ("clip".toList ++ '.' :: "mp4".toList))
        = "clip".toList ++ ".txt".toList
    ∧ (process_video_to_text ("clip".toList ++ '.' :: "mp4".toList) false
        [("clip.mp4".toList, []), ("clip.txt".toList, "old".toList)]
        ⟨true, ⟨true, some "new".toList⟩,
         ⟨false, true, true, 0, true, fun _ => true, fun _ => none, fun _ => true⟩,
         true, true, true⟩).1 = .ok true
    ∧ fsGet (process_video_to_text ("clip".toList ++ '.' :: "mp4".toList) false
        [("clip.mp4".toList, []), ("clip.txt".toList, "old".toList)]
        ⟨true, ⟨true, some "new".toList⟩,
         ⟨false, true, true, 0, true, fun _ => true, fun _ => none, fun _ => true⟩,
         true, true, true⟩).2 (textFileOf "clip".toList) = some "new".toList :=
  C8_output_name_overwrite "clip".toList "mp4".toList
    [("clip.mp4".toList, []), ("clip.txt".toList, "old".toList)]
    ⟨true, ⟨true, some "new".toList⟩,
     ⟨false, true, true, 0, true, fun _ => true, fun _ => none, fun _ => true⟩,
     true, true, true⟩
    "new".toList "old".toList
    (by decide) (by decide) (by decide) (by decide) (by decide)
    (by decide) rfl rfl rfl rfl rfl rfl (by decide)

/-- C10: artifact names depend only on the part of the video path after the
last slash (every directory component is stripped), and contain no slash
themselves: the temporary audio file, the output text file and the chunk
directory are bare filenames, so the operating system resolves them
relative to the process's current working directory, not next to the video
file. -/
theorem C10_artifacts_cwd (d p q : Path) :
    get_filename_without_extension (d ++ '/' :: p) = get_filename_without_extension p
      ∧ '/' ∉ audioFileOf (get_filename_without_extension q)
      ∧ '/' ∉ textFileOf (get_filename_without_extension q)
      ∧ '/' ∉ chunksDirOf (get_filename_without_extension q) := by
  refine ⟨?_, ?_, ?_, ?_⟩
  · unfold get_filename_without_extension
    rw [basename_append_slash]
  · intro hmem
    rcases List.mem_append.1 hmem with h | h
    · exact no_slash_gfwe q h
    · exact absurd h (by decide)
  · intro hmem
    rcases List.mem_append.1 hmem with h | h
    · exact no_slash_gfwe q h
    · exact absurd h (by decide)
  · intro hmem
    rcases List.mem_append.1 hmem with h | h
    · exact no_slash_gfwe q h
    · exact absurd h (by decide)

/-- C10 witness at a concrete path with directory components. -/
theorem C10_witness :
    get_filename_without_extension ("dir".toList ++ '/' :: "clip.mp4".toList)
        = get_filename_without_extension "clip.mp4".toList
      ∧ '/' ∉ audioFileOf (get_filename_without_extension "dir/clip.mp4".toList)
      ∧ '/' ∉ textFileOf (get_filename_without_extension "dir/clip.mp4".toList)
      ∧ '/' ∉ chunksDirOf (get_filename_without_extension "dir/clip.mp4".toList) :=
  C10_artifacts_cwd "dir".toList "clip.mp4".toList "dir/clip.mp4".toList

end VideoToText
